import Mathlib

/-!
Shallow embedding of the VictoriaMetricsAdapter repository's retry helpers
and of the metrics client's default time windows.

* `RetryHelperA` models `src/helper/retry_helper.py` (Variant A: retry only
  on exceptions accepted by `retry_condition`, re-raise the original
  exception on exhaustion or on a non-retryable exception).
* `RetryHelperB` models `src/helpers/retry_helper.py` (Variant B: retry on a
  rejected result or on any exception, raise a fresh `ValueError` naming the
  function and `max_retries` on exhaustion).
* `get_metric_range_data_window` models the default `start`/`end` parameter
  values of `src/victoria_metrics.py`.

The wrapped Python callable is modelled as an oracle `op : Nat → Outcome E A`
giving the outcome of its `i`-th invocation (0-based; the loop invokes the
callable exactly once per iteration, so invocation `i` happens with
`attempt = i`).  `execute` is modelled as a function returning the complete
observable trace of one call: the final result, the list of `on_retry`
invocations in order with the exact arguments passed, the number of
`time.sleep` calls and the number of invocations of the wrapped callable.
-/

namespace VMA

/-- Outcome of one invocation of the wrapped operation: a returned value or a
raised exception. -/
inductive Outcome (E A : Type) where
  | ok (a : A)
  | exn (e : E)
  deriving DecidableEq, Repr

/-- Observable trace of one `execute` call: final result `result`, the
arguments of the successive `on_retry` invocations `retries`, the number of
`time.sleep` calls `sleeps` and the number of invocations of the wrapped
callable `calls`. -/
structure Run (R L : Type) where
  result : R
  retries : List L
  sleeps : Nat
  calls : Nat
  deriving DecidableEq, Repr

/-- Result of a Variant A `execute` call: `returned a` models a normal
return, `raised e` models re-raising the operation's exception `e`
unmodified (`raise` with no argument), and `fellThrough` models the Python
function running off the end of the `while` loop (returning `None`); the
latter is unreachable from `RetryHelperA.execute`. -/
inductive ResultA (E A : Type) where
  | returned (a : A)
  | raised (e : E)
  | fellThrough
  deriving DecidableEq, Repr

/-- Result of a Variant B `execute` call: `returned a` models a normal
return, `exhausted funcName maxRetries` models the
`ValueError(f"Function 'name' failed after max_retries retries.")`
raised on exhaustion (it carries exactly the data interpolated into the
message), and `fellThrough` models running off the end of the loop
(unreachable from `RetryHelperB.execute`). -/
inductive ResultB (A : Type) where
  | returned (a : A)
  | exhausted (funcName : String) (maxRetries : Nat)
  | fellThrough
  deriving DecidableEq, Repr

/-- Truthiness test `self.retry_condition and not self.retry_condition(e)`
from Variant A's `execute`: with `retry_condition = None` (falsy in Python)
the whole conjunction is false, so every exception is retryable. -/
def condFailsA {E : Type} (cond : Option (E → Bool)) (e : E) : Bool :=
  match cond with
  | some c => !c e
  | none => false

/-- Loop body of Variant A's `execute` (src/helper/retry_helper.py, lines
43-53).  `fuel` counts the loop iterations still permitted by the guard
`attempt <= max_retries`: `execute` starts with `fuel = maxRetries + 1` and
each iteration increments `attempt` and decrements `fuel` in lockstep, so
`fuel = maxRetries + 1 - attempt` throughout.  Per iteration: invoke the
operation; on a normal return, return the value; on an exception `e`, if
`attempt == max_retries` or the exception is non-retryable, re-raise `e`;
otherwise increment `attempt`, invoke `on_retry` (if set) with the
already-incremented `attempt` and `e`, sleep, and loop. -/
def RetryHelperA.go {E A : Type} (maxRetries : Nat) (cond : Option (E → Bool))
    (hasCb : Bool) (op : Nat → Outcome E A) (attempt : Nat) :
    Nat → Run (ResultA E A) (Nat × E)
  | 0 => ⟨.fellThrough, [], 0, 0⟩
  | fuel + 1 =>
    match op attempt with
    | .ok a => ⟨.returned a, [], 0, 1⟩
    | .exn e =>
      if attempt = maxRetries ∨ condFailsA cond e = true then
        ⟨.raised e, [], 0, 1⟩
      else
        let rest := RetryHelperA.go maxRetries cond hasCb op (attempt + 1) fuel
        ⟨rest.result, (if hasCb then [(attempt + 1, e)] else []) ++ rest.retries,
          rest.sleeps + 1, rest.calls + 1⟩

/-- Variant A `RetryHelper.execute` (src/helper/retry_helper.py): run the
loop from `attempt = 0` with the full budget of `maxRetries + 1` iterations.
`hasCb` is whether `on_retry` was supplied (the code guards the callback
with `if self.on_retry:`). -/
def RetryHelperA.execute {E A : Type} (maxRetries : Nat)
    (cond : Option (E → Bool)) (hasCb : Bool) (op : Nat → Outcome E A) :
    Run (ResultA E A) (Nat × E) :=
  RetryHelperA.go maxRetries cond hasCb op 0 (maxRetries + 1)

/-- Loop body of Variant B's `execute` (src/helpers/retry_helper.py, lines
53-68).  Per iteration: invoke the operation; on a normal return `r`, if
`retry_condition(r)` holds, return `r`, otherwise invoke
`on_retry(attempt, r)`; on an exception `e`, invoke `on_retry(attempt, e)`;
then, if `attempt == max_retries`, raise the exhaustion `ValueError`,
otherwise increment `attempt`, sleep, and loop.  In this variant `on_retry`
is always set (`on_retry or self.log_retry`), so every rejection is logged,
including the one on the terminal attempt. -/
def RetryHelperB.go {E A : Type} (maxRetries : Nat) (cond : A → Bool)
    (funcName : String) (op : Nat → Outcome E A) (attempt : Nat) :
    Nat → Run (ResultB A) (Nat × Outcome E A)
  | 0 => ⟨.fellThrough, [], 0, 0⟩
  | fuel + 1 =>
    match op attempt with
    | .ok a =>
      if cond a then ⟨.returned a, [], 0, 1⟩
      else if attempt = maxRetries then
        ⟨.exhausted funcName maxRetries, [(attempt, .ok a)], 0, 1⟩
      else
        let rest := RetryHelperB.go maxRetries cond funcName op (attempt + 1) fuel
        ⟨rest.result, (attempt, Outcome.ok a) :: rest.retries,
          rest.sleeps + 1, rest.calls + 1⟩
    | .exn e =>
      if attempt = maxRetries then
        ⟨.exhausted funcName maxRetries, [(attempt, .exn e)], 0, 1⟩
      else
        let rest := RetryHelperB.go maxRetries cond funcName op (attempt + 1) fuel
        ⟨rest.result, (attempt, Outcome.exn e) :: rest.retries,
          rest.sleeps + 1, rest.calls + 1⟩

/-- Variant B `RetryHelper.execute` (src/helpers/retry_helper.py): run the
loop from `attempt = 0` with the full budget of `maxRetries + 1` iterations.
`funcName` is `func.__name__`, interpolated into the exhaustion error. -/
def RetryHelperB.execute {E A : Type} (maxRetries : Nat) (cond : A → Bool)
    (funcName : String) (op : Nat → Outcome E A) :
    Run (ResultB A) (Nat × Outcome E A) :=
  RetryHelperB.go maxRetries cond funcName op 0 (maxRetries + 1)

/-- Rejection of one outcome under Variant B: a returned result is rejected
when `retry_condition(result)` is false; every exception is rejected. -/
def rejectsB {E A : Type} (cond : A → Bool) : Outcome E A → Bool
  | .ok a => !cond a
  | .exn _ => true

/-- Default `(start, end)` parameter values of `get_metric_range_data`,
`generate_timestamps_and_values` and `victoria_import_tme_routes_metric`
(src/victoria_metrics.py).  Python evaluates default parameter expressions
once, when the `def` statement runs at module import: importing at clock
time `t0` (Unix seconds) binds `start = datetime.now() - timedelta(minutes=60)`
to `t0 - 3600` and `end = datetime.now()` to `t0`, for the lifetime of the
process. -/
def moduleLoadDefaults (t0 : Int) : Int × Int := (t0 - 60 * 60, t0)

set_option linter.unusedVariables false in
/-- The `(start, end)` window `get_metric_range_data` actually queries on a
call made at clock time `now`, given the module was imported at clock time
`t0`: explicitly passed arguments are used as passed, omitted ones fall back
to the values captured at import.  The body never reads the clock, so `now`
is not consulted.  `generate_timestamps_and_values` and
`victoria_import_tme_routes_metric` share exactly this default pattern. -/
def get_metric_range_data_window (t0 : Int) (now : Int)
    (startArg endArg : Option Int) : Int × Int :=
  (startArg.getD (moduleLoadDefaults t0).1, endArg.getD (moduleLoadDefaults t0).2)

/-- The behavior claim C9 (and the docstring "конец интервала ... по
умолчанию текущий datetime") describes: default window computed at the
moment of invocation — `end = now`, `start = now - 60` minutes. -/
def call_time_window (now : Int) (startArg endArg : Option Int) : Int × Int :=
  (startArg.getD (now - 60 * 60), endArg.getD now)

/-- Whether a Variant B result is a normal return. -/
def ResultB.isReturned {A : Type} : ResultB A → Bool
  | .returned _ => true
  | _ => false

/-- Predicate accepting every value (the Variant B default
`lambda result: True`, and a Variant A condition retrying everything). -/
def condTrue : Nat → Bool := fun _ => true

/-- Predicate rejecting every value (models polling that never sees the
expected response). -/
def condFalse : Nat → Bool := fun _ => false

/-- The spec scenario's `retryCondition = (x >= 3)`. -/
def geq3 : Nat → Bool := fun x => decide (3 ≤ x)

/-- Exception classifier accepting only exception code 1. -/
def isOne : Nat → Bool := fun e => decide (e = 1)

/-- Exception classifier accepting only exception code 9. -/
def isNine : Nat → Bool := fun e => decide (e = 9)

/-- Operation returning `1, 2, 3, 4, …` on successive invocations (the spec
scenario). -/
def opSeq : Nat → Outcome Nat Nat := fun i => .ok (i + 1)

/-- Operation returning `5` on every invocation. -/
def opOk5 : Nat → Outcome Nat Nat := fun _ => .ok 5

/-- Operation raising exception code 9 on every invocation. -/
def opExn9 : Nat → Outcome Nat Nat := fun _ => .exn 9

/-- Operation raising exception code 0 on every invocation. -/
def opRaise : Nat → Outcome Nat Nat := fun _ => .exn 0

/-- Operation raising exception code 7 on its first invocation and returning
`42` afterwards. -/
def opA1 : Nat → Outcome Nat Nat := fun i => if i = 0 then .exn 7 else .ok 42

/-- Operation raising exception code `i` on invocations `i = 0, 1` and
returning `9` afterwards. -/
def opA2 : Nat → Outcome Nat Nat := fun i => if i < 2 then .exn i else .ok 9

/-- Exception sequence of `opA2`: invocation `i` raises code `i`. -/
def idErr : Nat → Nat := fun i => i

/-- Exception sequence of `opExn9`: every invocation raises code 9. -/
def err9 : Nat → Nat := fun _ => 9

/-- Attempt budget of the Variant A loop: the number of loop iterations still
permitted never exceeds the remaining fuel, so the operation is invoked at
most `fuel` times. -/
theorem goA_calls_le {E A : Type} (mr : Nat) (cond : Option (E → Bool))
    (cb : Bool) (op : Nat → Outcome E A) :
    ∀ fuel attempt, (RetryHelperA.go mr cond cb op attempt fuel).calls ≤ fuel := by
  intro fuel
  induction fuel with
  | zero => intro attempt; simp [RetryHelperA.go]
  | succ f ih =>
    intro attempt
    cases h : op attempt with
    | ok a => simp [RetryHelperA.go, h]
    | exn e =>
      by_cases hc : attempt = mr ∨ condFailsA cond e = true
      · simp [RetryHelperA.go, h, hc]
      · have := ih (attempt + 1)
        simp only [RetryHelperA.go, h, if_neg hc]
        simpa using Nat.succ_le_succ this

/-- Attempt budget of the Variant B loop: the operation is invoked at most
`fuel` times. -/
theorem goB_calls_le {E A : Type} (mr : Nat) (cond : A → Bool) (name : String)
    (op : Nat → Outcome E A) :
    ∀ fuel attempt, (RetryHelperB.go mr cond name op attempt fuel).calls ≤ fuel := by
  intro fuel
  induction fuel with
  | zero => intro attempt; simp [RetryHelperB.go]
  | succ f ih =>
    intro attempt
    cases h : op attempt with
    | ok a =>
      by_cases hc : cond a = true
      · simp [RetryHelperB.go, h, hc]
      · by_cases hm : attempt = mr
        · subst hm; simp [RetryHelperB.go, h, hc]
        · have := ih (attempt + 1)
          simp only [RetryHelperB.go, h, if_neg hc, if_neg hm]
          simp only [Bool.not_eq_true] at hc
          simp [hc, hm]
          omega
    | exn e =>
      by_cases hm : attempt = mr
      · subst hm; simp [RetryHelperB.go, h]
      · have := ih (attempt + 1)
        simp only [RetryHelperB.go, h, if_neg hm]
        simpa using Nat.succ_le_succ this

/-- Every attempt index passed to Variant A's `on_retry` is at most
`maxRetries`, provided the loop's budget invariant holds. -/
theorem goA_retries_le {E A : Type} (mr : Nat) (cond : Option (E → Bool))
    (cb : Bool) (op : Nat → Outcome E A) :
    ∀ fuel attempt, attempt + fuel ≤ mr + 1 →
      ((RetryHelperA.go mr cond cb op attempt fuel).retries).all
        (fun p => decide (p.1 ≤ mr)) = true := by
  intro fuel
  induction fuel with
  | zero => intro attempt _; simp [RetryHelperA.go]
  | succ f ih =>
    intro attempt hinv
    cases h : op attempt with
    | ok a => simp [RetryHelperA.go, h]
    | exn e =>
      by_cases hc : attempt = mr ∨ condFailsA cond e = true
      · simp [RetryHelperA.go, h, hc]
      · have hrec := ih (attempt + 1) (by omega)
        have hle : attempt + 1 ≤ mr := by
          rcases Classical.em (attempt = mr) with hm | hm
          · exact absurd (Or.inl hm) hc
          · omega
        simp only [RetryHelperA.go, h, if_neg hc]
        cases cb <;> (simp_all; try exact hrec)

/-- Every attempt index passed to Variant B's `on_retry` is at most
`maxRetries`, provided the loop's budget invariant holds. -/
theorem goB_retries_le {E A : Type} (mr : Nat) (cond : A → Bool) (name : String)
    (op : Nat → Outcome E A) :
    ∀ fuel attempt, attempt + fuel ≤ mr + 1 →
      ((RetryHelperB.go mr cond name op attempt fuel).retries).all
        (fun p => decide (p.1 ≤ mr)) = true := by
  intro fuel
  induction fuel with
  | zero => intro attempt _; simp [RetryHelperB.go]
  | succ f ih =>
    intro attempt hinv
    cases h : op attempt with
    | ok a =>
      by_cases hc : cond a = true
      · simp [RetryHelperB.go, h, hc]
      · by_cases hm : attempt = mr
        · subst hm; simp [RetryHelperB.go, h, hc]
        · have hrec := ih (attempt + 1) (by omega)
          have hle : attempt ≤ mr := by omega
          simp only [RetryHelperB.go, h, if_neg hc, if_neg hm]
          simp_all
          exact hrec
    | exn e =>
      by_cases hm : attempt = mr
      · subst hm; simp [RetryHelperB.go, h]
      · have hrec := ih (attempt + 1) (by omega)
        have hle : attempt ≤ mr := by omega
        simp only [RetryHelperB.go, h, if_neg hm]
        simp_all
        exact hrec

/-- Run shape of Variant B on `j` rejections followed by an acceptance:
starting at `attempt` with the budget invariant, if invocations
`attempt, …, attempt + j - 1` are all rejected and invocation `attempt + j`
returns `a` with `retry_condition a` true, the loop returns `a`, logs the
`j` rejected outcomes at their attempt indices in order, sleeps `j` times
and invokes the operation `j + 1` times. -/
theorem goB_accepts {E A : Type} (mr : Nat) (cond : A → Bool) (name : String)
    (op : Nat → Outcome E A) (a : A) (ha : cond a = true) :
    ∀ j attempt fuel, attempt + fuel = mr + 1 → attempt + j ≤ mr →
      (∀ i, i < j → rejectsB cond (op (attempt + i)) = true) →
      op (attempt + j) = .ok a →
      RetryHelperB.go mr cond name op attempt fuel =
        ⟨.returned a, (List.range' attempt j).map (fun i => (i, op i)), j, j + 1⟩ := by
  intro j
  induction j with
  | zero =>
    intro attempt fuel hinv hle hrej hacc
    obtain ⟨f, rfl⟩ : ∃ f, fuel = f + 1 := ⟨fuel - 1, by omega⟩
    simp only [Nat.add_zero] at hacc
    simp [RetryHelperB.go, hacc, ha]
  | succ j ih =>
    intro attempt fuel hinv hle hrej hacc
    obtain ⟨f, rfl⟩ : ∃ f, fuel = f + 1 := ⟨fuel - 1, by omega⟩
    have hm : ¬attempt = mr := by omega
    have hrej0 := hrej 0 (by omega)
    have hrec := ih (attempt + 1) f (by omega) (by omega)
      (fun i hi => by
        have := hrej (i + 1) (by omega)
        simpa [Nat.add_assoc, Nat.add_comm 1 i] using this)
      (by simpa [Nat.add_assoc, Nat.add_comm 1 j] using hacc)
    simp only [Nat.add_zero] at hrej0
    cases h : op attempt with
    | ok b =>
      have hb : cond b = false := by
        have := hrej0
        simp [rejectsB, h] at this
        simpa using this
      simp only [RetryHelperB.go, h, hb, if_neg hm, Bool.false_eq_true, if_false]
      rw [hrec]
      simp [List.range'_succ, h]
    | exn e =>
      simp only [RetryHelperB.go, h, if_neg hm]
      rw [hrec]
      simp [List.range'_succ, h]

/-- Run shape of Variant A on `j` retryable raises followed by a normal
return: starting at `attempt` with the budget invariant, if invocations
`attempt, …, attempt + j - 1` all raise exceptions accepted by
`retry_condition` and invocation `attempt + j` returns `a`, the loop returns
`a`, logs the `j` exceptions with the already-incremented attempt indices
`attempt + 1, …, attempt + j` in order, sleeps `j` times and invokes the
operation `j + 1` times. -/
theorem goA_accepts {E A : Type} (mr : Nat) (c : E → Bool)
    (op : Nat → Outcome E A) (err : Nat → E) (a : A) :
    ∀ j attempt fuel, attempt + fuel = mr + 1 → attempt + j ≤ mr →
      (∀ i, i < j →
        op (attempt + i) = .exn (err (attempt + i)) ∧ c (err (attempt + i)) = true) →
      op (attempt + j) = .ok a →
      RetryHelperA.go mr (some c) true op attempt fuel =
        ⟨.returned a, (List.range' attempt j).map (fun i => (i + 1, err i)), j, j + 1⟩ := by
  intro j
  induction j with
  | zero =>
    intro attempt fuel hinv hle hrej hacc
    obtain ⟨f, rfl⟩ : ∃ f, fuel = f + 1 := ⟨fuel - 1, by omega⟩
    simp only [Nat.add_zero] at hacc
    simp [RetryHelperA.go, hacc]
  | succ j ih =>
    intro attempt fuel hinv hle hrej hacc
    obtain ⟨f, rfl⟩ : ∃ f, fuel = f + 1 := ⟨fuel - 1, by omega⟩
    have hm : ¬attempt = mr := by omega
    obtain ⟨hop0, hc0⟩ := hrej 0 (by omega)
    simp only [Nat.add_zero] at hop0 hc0
    have hrec := ih (attempt + 1) f (by omega) (by omega)
      (fun i hi => by
        have := hrej (i + 1) (by omega)
        simpa [Nat.add_assoc, Nat.add_comm 1 i] using this)
      (by simpa [Nat.add_assoc, Nat.add_comm 1 j] using hacc)
    have hcf : ¬(attempt = mr ∨ condFailsA (some c) (err attempt) = true) := by
      simp [condFailsA, hc0, hm]
    simp only [RetryHelperA.go, hop0, if_neg hcf]
    rw [hrec]
    simp [List.range'_succ]

/-- Run shape of Variant B when every remaining invocation is rejected: the
loop raises the exhaustion error naming the function and `max_retries`, after
invoking the operation once per remaining iteration and sleeping between
consecutive iterations. -/
theorem goB_exhaust {E A : Type} (mr : Nat) (cond : A → Bool) (name : String)
    (op : Nat → Outcome E A) :
    ∀ fuel attempt, attempt + fuel = mr + 1 → attempt ≤ mr →
      (∀ i, attempt ≤ i → i ≤ mr → rejectsB cond (op i) = true) →
      (RetryHelperB.go mr cond name op attempt fuel).result = .exhausted name mr ∧
      (RetryHelperB.go mr cond name op attempt fuel).calls = fuel ∧
      (RetryHelperB.go mr cond name op attempt fuel).sleeps = fuel - 1 := by
  intro fuel
  induction fuel with
  | zero => intro attempt h1 h2 _; omega
  | succ f ih =>
    intro attempt hinv hle hrej
    have h0 := hrej attempt (Nat.le_refl attempt) hle
    cases h : op attempt with
    | ok a =>
      have hb : cond a = false := by
        simp [rejectsB, h] at h0
        simpa using h0
      by_cases hm : attempt = mr
      · have hf : f = 0 := by omega
        subst hm; subst hf
        simp [RetryHelperB.go, h, hb]
      · have hrec := ih (attempt + 1) (by omega) (by omega)
          (fun i hi1 hi2 => hrej i (by omega) hi2)
        obtain ⟨r1, r2, r3⟩ := hrec
        simp only [RetryHelperB.go, h, hb, Bool.false_eq_true, if_false, if_neg hm]
        refine ⟨by simpa using r1, by simpa using r2, ?_⟩
        simp [r3]
        omega
    | exn e =>
      by_cases hm : attempt = mr
      · have hf : f = 0 := by omega
        subst hm; subst hf
        simp [RetryHelperB.go, h]
      · have hrec := ih (attempt + 1) (by omega) (by omega)
          (fun i hi1 hi2 => hrej i (by omega) hi2)
        obtain ⟨r1, r2, r3⟩ := hrec
        simp only [RetryHelperB.go, h, if_neg hm]
        refine ⟨by simpa using r1, by simpa using r2, ?_⟩
        simp [r3]
        omega

/-- Run shape of Variant A when every invocation through index `maxRetries`
raises a retryable exception: the loop re-raises the exception of invocation
`maxRetries` unmodified, after invoking the operation once per remaining
iteration and sleeping between consecutive iterations. -/
theorem goA_exhaust {E A : Type} (mr : Nat) (c : E → Bool) (cb : Bool)
    (op : Nat → Outcome E A) (err : Nat → E)
    (hall : ∀ i, i ≤ mr → op i = .exn (err i) ∧ c (err i) = true) :
    ∀ fuel attempt, attempt + fuel = mr + 1 → attempt ≤ mr →
      (RetryHelperA.go mr (some c) cb op attempt fuel).result = .raised (err mr) ∧
      (RetryHelperA.go mr (some c) cb op attempt fuel).calls = fuel ∧
      (RetryHelperA.go mr (some c) cb op attempt fuel).sleeps = fuel - 1 := by
  intro fuel
  induction fuel with
  | zero => intro attempt h1 h2; omega
  | succ f ih =>
    intro attempt hinv hle
    obtain ⟨hop, hc⟩ := hall attempt hle
    by_cases hm : attempt = mr
    · have hf : f = 0 := by omega
      subst hm; subst hf
      simp [RetryHelperA.go, hop]
    · have hcf : ¬(attempt = mr ∨ condFailsA (some c) (err attempt) = true) := by
        simp [condFailsA, hc, hm]
      have hrec := ih (attempt + 1) (by omega) (by omega)
      obtain ⟨r1, r2, r3⟩ := hrec
      simp only [RetryHelperA.go, hop, if_neg hcf]
      refine ⟨by simpa using r1, by simpa using r2, ?_⟩
      simp [r3]
      omega

/-- Exactness of Variant A's re-raise: whenever the loop terminates by
raising `e`, the exception `e` was raised unmodified by some invocation `i`,
and at that invocation either `retry_condition e` was false or retries were
exhausted (`i = maxRetries`). -/
theorem goA_raised_exact {E A : Type} (mr : Nat) (c : E → Bool) (cb : Bool)
    (op : Nat → Outcome E A) :
    ∀ fuel attempt (e : E), attempt + fuel = mr + 1 →
      (RetryHelperA.go mr (some c) cb op attempt fuel).result = .raised e →
      ∃ i, attempt ≤ i ∧ i ≤ mr ∧ op i = .exn e ∧ (c e = false ∨ i = mr) := by
  intro fuel
  induction fuel with
  | zero =>
    intro attempt e _ hr
    simp [RetryHelperA.go] at hr
  | succ f ih =>
    intro attempt e hinv hr
    cases h : op attempt with
    | ok a => simp [RetryHelperA.go, h] at hr
    | exn e' =>
      by_cases hcnd : attempt = mr ∨ condFailsA (some c) e' = true
      · simp [RetryHelperA.go, h, hcnd] at hr
        subst hr
        refine ⟨attempt, Nat.le_refl attempt, by omega, h, ?_⟩
        rcases hcnd with hm | hf
        · exact Or.inr hm
        · simp [condFailsA] at hf
          exact Or.inl hf
      · simp only [RetryHelperA.go, h, if_neg hcnd] at hr
        obtain ⟨i, hi1, hi2, hi3, hi4⟩ := ih (attempt + 1) e (by omega) hr
        exact ⟨i, by omega, hi2, hi3, hi4⟩

/-- Variant A's `on_retry` accounting with a callback installed: every
invocation of the operation except the last one (the one that returns or
raises) triggers exactly one `on_retry` call. -/
theorem goA_count {E A : Type} (mr : Nat) (cond : Option (E → Bool))
    (op : Nat → Outcome E A) :
    ∀ fuel attempt, attempt + fuel = mr + 1 → attempt ≤ mr →
      (RetryHelperA.go mr cond true op attempt fuel).calls
        = (RetryHelperA.go mr cond true op attempt fuel).retries.length + 1 := by
  intro fuel
  induction fuel with
  | zero => intro attempt h1 h2; omega
  | succ f ih =>
    intro attempt hinv hle
    cases h : op attempt with
    | ok a => simp [RetryHelperA.go, h]
    | exn e =>
      by_cases hcnd : attempt = mr ∨ condFailsA cond e = true
      · simp [RetryHelperA.go, h, hcnd]
      · have hm : ¬attempt = mr := fun hm => hcnd (Or.inl hm)
        have hrec := ih (attempt + 1) (by omega) (by omega)
        simp only [RetryHelperA.go, h, if_neg hcnd]
        simp [hrec]

/-- Variant B's `on_retry` accounting: every invocation of the operation
triggers exactly one `on_retry` call except an accepted final invocation —
in particular the rejected invocation that precedes the exhaustion raise is
logged too. -/
theorem goB_count {E A : Type} (mr : Nat) (cond : A → Bool) (name : String)
    (op : Nat → Outcome E A) :
    ∀ fuel attempt,
      (RetryHelperB.go mr cond name op attempt fuel).calls
        = (RetryHelperB.go mr cond name op attempt fuel).retries.length
          + (if ((RetryHelperB.go mr cond name op attempt fuel).result).isReturned
              then 1 else 0) := by
  intro fuel
  induction fuel with
  | zero => intro attempt; simp [RetryHelperB.go, ResultB.isReturned]
  | succ f ih =>
    intro attempt
    cases h : op attempt with
    | ok a =>
      by_cases hc : cond a = true
      · simp [RetryHelperB.go, h, hc, ResultB.isReturned]
      · by_cases hm : attempt = mr
        · subst hm; simp [RetryHelperB.go, h, hc, ResultB.isReturned]
        · have hrec := ih (attempt + 1)
          simp only [RetryHelperB.go, h, if_neg hc, if_neg hm]
          simp only [Bool.not_eq_true] at hc
          simp [hc, hm, hrec]
          omega
    | exn e =>
      by_cases hm : attempt = mr
      · subst hm; simp [RetryHelperB.go, h, ResultB.isReturned]
      · have hrec := ih (attempt + 1)
        simp only [RetryHelperB.go, h, if_neg hm]
        simp [hrec]
        omega

/-- Soundness of Variant B's normal return: a value is returned only after
`retry_condition` accepted it. -/
theorem goB_returned_cond {E A : Type} (mr : Nat) (cond : A → Bool)
    (name : String) (op : Nat → Outcome E A) :
    ∀ fuel attempt (v : A),
      (RetryHelperB.go mr cond name op attempt fuel).result = .returned v →
      cond v = true := by
  intro fuel
  induction fuel with
  | zero => intro attempt v hr; simp [RetryHelperB.go] at hr
  | succ f ih =>
    intro attempt v hr
    cases h : op attempt with
    | ok a =>
      by_cases hc : cond a = true
      · simp [RetryHelperB.go, h, hc] at hr
        subst hr; exact hc
      · by_cases hm : attempt = mr
        · subst hm; simp [RetryHelperB.go, h, hc] at hr
        · simp only [RetryHelperB.go, h, if_neg hc, if_neg hm] at hr
          exact ih (attempt + 1) v hr
    | exn e =>
      by_cases hm : attempt = mr
      · subst hm; simp [RetryHelperB.go, h] at hr
      · simp only [RetryHelperB.go, h, if_neg hm] at hr
        exact ih (attempt + 1) v hr

/-- Provenance of Variant A's normal return: a returned value was produced
unchanged by some invocation of the operation. -/
theorem goA_returned_from_op {E A : Type} (mr : Nat) (cond : Option (E → Bool))
    (cb : Bool) (op : Nat → Outcome E A) :
    ∀ fuel attempt (v : A),
      (RetryHelperA.go mr cond cb op attempt fuel).result = .returned v →
      ∃ i, attempt ≤ i ∧ op i = .ok v := by
  intro fuel
  induction fuel with
  | zero => intro attempt v hr; simp [RetryHelperA.go] at hr
  | succ f ih =>
    intro attempt v hr
    cases h : op attempt with
    | ok a =>
      simp [RetryHelperA.go, h] at hr
      exact ⟨attempt, Nat.le_refl attempt, by rw [h, hr]⟩
    | exn e =>
      by_cases hcnd : attempt = mr ∨ condFailsA cond e = true
      · simp [RetryHelperA.go, h, hcnd] at hr
      · simp only [RetryHelperA.go, h, if_neg hcnd] at hr
        obtain ⟨i, hi1, hi2⟩ := ih (attempt + 1) v hr
        exact ⟨i, by omega, hi2⟩

/-- Provenance of Variant B's normal return: a returned value was produced
unchanged by some invocation of the operation. -/
theorem goB_returned_from_op {E A : Type} (mr : Nat) (cond : A → Bool)
    (name : String) (op : Nat → Outcome E A) :
    ∀ fuel attempt (v : A),
      (RetryHelperB.go mr cond name op attempt fuel).result = .returned v →
      ∃ i, attempt ≤ i ∧ op i = .ok v := by
  intro fuel
  induction fuel with
  | zero => intro attempt v hr; simp [RetryHelperB.go] at hr
  | succ f ih =>
    intro attempt v hr
    cases h : op attempt with
    | ok a =>
      by_cases hc : cond a = true
      · simp [RetryHelperB.go, h, hc] at hr
        exact ⟨attempt, Nat.le_refl attempt, by rw [h, hr]⟩
      · by_cases hm : attempt = mr
        · subst hm; simp [RetryHelperB.go, h, hc] at hr
        · simp only [RetryHelperB.go, h, if_neg hc, if_neg hm] at hr
          obtain ⟨i, hi1, hi2⟩ := ih (attempt + 1) v hr
          exact ⟨i, by omega, hi2⟩
    | exn e =>
      by_cases hm : attempt = mr
      · subst hm; simp [RetryHelperB.go, h] at hr
      · simp only [RetryHelperB.go, h, if_neg hm] at hr
        obtain ⟨i, hi1, hi2⟩ := ih (attempt + 1) v hr
        exact ⟨i, by omega, hi2⟩

/-- C1: for every retry policy (Variant A and Variant B) and every operation,
one `execute` call invokes the operation at most `maxRetries + 1` times — so
the 0-based attempt counter, which equals the index of the current
invocation, never exceeds `maxRetries` — and every attempt index passed to
`on_retry` is at most `maxRetries`. -/
theorem claim_C1 {E A : Type} (mr : Nat) (cond : Option (E → Bool)) (cb : Bool)
    (op : Nat → Outcome E A) (condB : A → Bool) (name : String)
    (opB : Nat → Outcome E A) :
    (RetryHelperA.execute mr cond cb op).calls ≤ mr + 1 ∧
    ((RetryHelperA.execute mr cond cb op).retries).all
      (fun p => decide (p.1 ≤ mr)) = true ∧
    (RetryHelperB.execute mr condB name opB).calls ≤ mr + 1 ∧
    ((RetryHelperB.execute mr condB name opB).retries).all
      (fun p => decide (p.1 ≤ mr)) = true :=
  ⟨goA_calls_le mr cond cb op (mr + 1) 0,
   goA_retries_le mr cond cb op (mr + 1) 0 (by omega),
   goB_calls_le mr condB name opB (mr + 1) 0,
   goB_retries_le mr condB name opB (mr + 1) 0 (by omega)⟩

/-- C2: for Variant B, whenever every attempt through index `maxRetries` is
rejected (exception or result failing `retry_condition` alike), `execute`
raises the distinct exhaustion error carrying the operation's name and the
retry count — a `ResultB.exhausted` value, by construction not the original
exception and not the rejected result. -/
theorem claim_C2 {E A : Type} (mr : Nat) (cond : A → Bool) (name : String)
    (op : Nat → Outcome E A)
    (hrej : ∀ i, i ≤ mr → rejectsB cond (op i) = true) :
    (RetryHelperB.execute mr cond name op).result = .exhausted name mr :=
  (goB_exhaust mr cond name op (mr + 1) 0 (by omega) (by omega)
    (fun i _ hi2 => hrej i hi2)).1

/-- Witness for C2, covering both rejection kinds: always-rejected results
(`opOk5` under `condFalse`) and always-raised exceptions (`opRaise` under
`condTrue`). -/
theorem claim_C2_witness :
    (RetryHelperB.execute 2 condFalse "poll" opOk5).result = .exhausted "poll" 2 ∧
    (RetryHelperB.execute 2 condTrue "poll" opRaise).result = .exhausted "poll" 2 :=
  ⟨claim_C2 2 condFalse "poll" opOk5 (fun _ _ => rfl),
   claim_C2 2 condTrue "poll" opRaise (fun _ _ => rfl)⟩

/-- C3: for Variant A with a `retry_condition` installed, `execute`
propagates an exception unmodified exactly when the condition rejects it or
retries are exhausted: first, a non-retryable exception on the very first
attempt propagates immediately with zero sleeps and zero callbacks for every
`maxRetries`; second, whenever the run raises `e`, that `e` was raised
unmodified by some invocation `i ≤ maxRetries` at which
`retry_condition e` was false or `i = maxRetries`. -/
theorem claim_C3 {E A : Type} (mr : Nat) (c : E → Bool) (cb : Bool)
    (op : Nat → Outcome E A) (e : E) :
    (op 0 = .exn e → c e = false →
      RetryHelperA.execute mr (some c) cb op = ⟨.raised e, [], 0, 1⟩) ∧
    (match (RetryHelperA.execute mr (some c) cb op).result with
     | .raised eT => ∃ i, i ≤ mr ∧ op i = .exn eT ∧ (c eT = false ∨ i = mr)
     | _ => True) := by
  constructor
  · intro h0 hc
    simp [RetryHelperA.execute, RetryHelperA.go, h0, condFailsA, hc]
  · cases hres : (RetryHelperA.execute mr (some c) cb op).result with
    | returned a => trivial
    | raised eT =>
      obtain ⟨i, _, hi2, hi3, hi4⟩ :=
        goA_raised_exact mr c cb op (mr + 1) 0 eT (by omega) hres
      exact ⟨i, hi2, hi3, hi4⟩
    | fellThrough => trivial

/-- Witness for C3: `opExn9` raises exception code 9, which `isOne` rejects,
so the exception propagates on the first attempt with zero sleeps although
`maxRetries = 5`. -/
theorem claim_C3_witness :
    RetryHelperA.execute 5 (some isOne) true opExn9 = ⟨.raised 9, [], 0, 1⟩ :=
  (claim_C3 5 isOne true opExn9 9).1 rfl rfl

/-- Counterexample to C4 as stated: Variant A with `maxRetries = 1`, an
operation rejected once then accepted (`opA1`), and an always-true
condition.  The run returns the accepted result after `n = 1` rejection and
invokes `on_retry` once, but with attempt index 1 — not the claimed index
`0` (the code increments `attempt` before invoking the callback). -/
theorem claim_C4_counterexample :
    RetryHelperA.execute 1 (some condTrue) true opA1
      = ⟨.returned 42, [(1, 7)], 1, 2⟩ ∧
    (RetryHelperA.execute 1 (some condTrue) true opA1).retries.map Prod.fst
      ≠ [0] := by decide

/-- C4 (amended): for `n ≤ maxRetries` rejections followed by one
acceptance, both variants return the accepted result after `n + 1`
invocations, `n` sleeps and exactly `n` `on_retry` calls — Variant B with
attempt indices `0, …, n-1` in order, Variant A with the already-incremented
indices `1, …, n` in order. -/
theorem claim_C4 {E A : Type} (mr n : Nat) (c : E → Bool)
    (op : Nat → Outcome E A) (err : Nat → E) (a : A) (condB : A → Bool)
    (name : String) (opB : Nat → Outcome E A) (b : A) (hn : n ≤ mr)
    (hA : ∀ i, i < n → op i = .exn (err i) ∧ c (err i) = true)
    (hAacc : op n = .ok a)
    (hB : ∀ i, i < n → rejectsB condB (opB i) = true)
    (hBacc : opB n = .ok b) (hBc : condB b = true) :
    RetryHelperA.execute mr (some c) true op
      = ⟨.returned a, (List.range n).map (fun i => (i + 1, err i)), n, n + 1⟩ ∧
    RetryHelperB.execute mr condB name opB
      = ⟨.returned b, (List.range n).map (fun i => (i, opB i)), n, n + 1⟩ := by
  constructor
  · have h := goA_accepts mr c op err a n 0 (mr + 1) (by omega) (by omega)
      (fun i hi => by simpa using hA i hi) (by simpa using hAacc)
    simpa [RetryHelperA.execute, List.range_eq_range'] using h
  · have h := goB_accepts mr condB name opB b hBc n 0 (mr + 1) (by omega)
      (by omega) (fun i hi => by simpa using hB i hi) (by simpa using hBacc)
    simpa [RetryHelperB.execute, List.range_eq_range'] using h

/-- Witness for C4 (amended), with `n = 2`, `maxRetries = 3`: Variant A runs
`opA2` (raises codes 0 then 1, then returns 9) under an always-true
condition and logs indices 1, 2; Variant B runs the spec scenario — `opSeq`
returns `1, 2, 3, …` under `x ≥ 3` — returning 3 and logging indices 0, 1. -/
theorem claim_C4_witness :
    RetryHelperA.execute 3 (some condTrue) true opA2
      = ⟨.returned 9, [(1, 0), (2, 1)], 2, 3⟩ ∧
    RetryHelperB.execute 3 geq3 "op" opSeq
      = ⟨.returned 3, [(0, .ok 1), (1, .ok 2)], 2, 3⟩ :=
  claim_C4 3 2 condTrue opA2 idErr 9 geq3 "op" opSeq 3 (by omega)
    (by intro i hi; interval_cases i <;> exact ⟨rfl, rfl⟩) rfl
    (by intro i hi; interval_cases i <;> rfl) rfl rfl

/-- Counterexample to C5 as stated: Variant B with `maxRetries = 0` and
`opOk5` rejected by `condFalse`.  The only rejected attempt is the terminal
one whose rejection causes `execute` to raise, so the claim predicts zero
`on_retry` invocations — but the code invokes `on_retry` once (on the
terminal attempt, just before raising). -/
theorem claim_C5_counterexample :
    (RetryHelperB.execute 0 condFalse "f" opOk5).result = .exhausted "f" 0 ∧
    (RetryHelperB.execute 0 condFalse "f" opOk5).retries.length ≠ 0 := by decide

/-- C5 (amended): Variant A (with a callback installed) invokes `on_retry`
exactly once per invocation of the operation except the final one — the
final accepted or terminally-raising attempt is never logged; Variant B
invokes `on_retry` exactly once per rejected attempt including the terminal
attempt that precedes the exhaustion raise, and never on an accepted final
attempt: its callback count is `calls` minus one exactly when the run
returns normally, and `calls` otherwise. -/
theorem claim_C5 {E A : Type} (mr : Nat) (cond : Option (E → Bool))
    (op : Nat → Outcome E A) (condB : A → Bool) (name : String)
    (opB : Nat → Outcome E A) :
    (RetryHelperA.execute mr cond true op).calls
      = (RetryHelperA.execute mr cond true op).retries.length + 1 ∧
    (RetryHelperB.execute mr condB name opB).calls
      = (RetryHelperB.execute mr condB name opB).retries.length
        + (if ((RetryHelperB.execute mr condB name opB).result).isReturned
            then 1 else 0) :=
  ⟨goA_count mr cond op (mr + 1) 0 (by omega) (by omega),
   goB_count mr condB name opB (mr + 1) 0⟩

/-- C6: if every invocation is rejected (Variant A: raises a retryable
exception; Variant B: raises or returns a result failing the condition),
`execute` raises after exactly `maxRetries + 1` invocations and exactly
`maxRetries` sleeps — Variant A re-raising the last exception, Variant B
raising the exhaustion error.  Instantiating `maxRetries = 0` gives exactly
one invocation and zero sleeps. -/
theorem claim_C6 {E A : Type} (mr : Nat) (c : E → Bool) (cb : Bool)
    (op : Nat → Outcome E A) (err : Nat → E) (condB : A → Bool)
    (name : String) (opB : Nat → Outcome E A)
    (hA : ∀ i, i ≤ mr → op i = .exn (err i) ∧ c (err i) = true)
    (hB : ∀ i, i ≤ mr → rejectsB condB (opB i) = true) :
    ((RetryHelperA.execute mr (some c) cb op).result = .raised (err mr) ∧
     (RetryHelperA.execute mr (some c) cb op).calls = mr + 1 ∧
     (RetryHelperA.execute mr (some c) cb op).sleeps = mr) ∧
    ((RetryHelperB.execute mr condB name opB).result = .exhausted name mr ∧
     (RetryHelperB.execute mr condB name opB).calls = mr + 1 ∧
     (RetryHelperB.execute mr condB name opB).sleeps = mr) := by
  constructor
  · have h := goA_exhaust mr c cb op err hA (mr + 1) 0 (by omega) (by omega)
    simpa using h
  · have h := goB_exhaust mr condB name opB (mr + 1) 0 (by omega) (by omega)
      (fun i _ hi2 => hB i hi2)
    simpa using h

/-- Witness for C6: `maxRetries = 2` with `opExn9` always raising a
retryable exception (Variant A) and `opOk5` always rejected by `condFalse`
(Variant B) — 3 invocations, 2 sleeps each; and the `maxRetries = 0` edge
case — one invocation, zero sleeps. -/
theorem claim_C6_witness :
    ((RetryHelperA.execute 2 (some isNine) true opExn9).result = .raised 9 ∧
     (RetryHelperA.execute 2 (some isNine) true opExn9).calls = 3 ∧
     (RetryHelperA.execute 2 (some isNine) true opExn9).sleeps = 2) ∧
    ((RetryHelperB.execute 2 condFalse "f" opOk5).result = .exhausted "f" 2 ∧
     (RetryHelperB.execute 2 condFalse "f" opOk5).calls = 3 ∧
     (RetryHelperB.execute 2 condFalse "f" opOk5).sleeps = 2) ∧
    ((RetryHelperA.execute 0 (some isNine) true opExn9).calls = 1 ∧
     (RetryHelperA.execute 0 (some isNine) true opExn9).sleeps = 0 ∧
     (RetryHelperB.execute 0 condFalse "f" opOk5).calls = 1 ∧
     (RetryHelperB.execute 0 condFalse "f" opOk5).sleeps = 0) := by
  have h2 := claim_C6 2 isNine true opExn9 err9 condFalse "f" opOk5
    (fun _ _ => ⟨rfl, rfl⟩) (fun _ _ => rfl)
  have h0 := claim_C6 0 isNine true opExn9 err9 condFalse "f" opOk5
    (fun _ _ => ⟨rfl, rfl⟩) (fun _ _ => rfl)
  exact ⟨h2.1, h2.2, h0.1.2.1, h0.1.2.2, h0.2.2.1, h0.2.2.2⟩

/-- C7: on acceptance `execute` returns the operation's result unchanged and
immediately.  First, Variant A: a first invocation that returns normally is
accepted whatever the condition is — the result is never tested — with one
invocation, no sleeps, no callbacks; second, the same for Variant B when the
condition accepts the first result; third and fourth, any value either
variant returns normally was produced unchanged by some invocation of the
operation. -/
theorem claim_C7 {E A : Type} (mr : Nat) (cond : Option (E → Bool))
    (cb : Bool) (op : Nat → Outcome E A) (a : A) (condB : A → Bool)
    (name : String) (opB : Nat → Outcome E A) (b : A) :
    (op 0 = .ok a →
      RetryHelperA.execute mr cond cb op = ⟨.returned a, [], 0, 1⟩) ∧
    (opB 0 = .ok b → condB b = true →
      RetryHelperB.execute mr condB name opB = ⟨.returned b, [], 0, 1⟩) ∧
    (match (RetryHelperA.execute mr cond cb op).result with
     | .returned v => ∃ i, op i = .ok v
     | _ => True) ∧
    (match (RetryHelperB.execute mr condB name opB).result with
     | .returned v => ∃ i, opB i = .ok v
     | _ => True) := by
  refine ⟨?_, ?_, ?_, ?_⟩
  · intro h0
    simp [RetryHelperA.execute, RetryHelperA.go, h0]
  · intro h0 hc
    simp [RetryHelperB.execute, RetryHelperB.go, h0, hc]
  · cases hres : (RetryHelperA.execute mr cond cb op).result with
    | returned v =>
      obtain ⟨i, _, hi⟩ := goA_returned_from_op mr cond cb op (mr + 1) 0 v hres
      exact ⟨i, hi⟩
    | raised e => trivial
    | fellThrough => trivial
  · cases hres : (RetryHelperB.execute mr condB name opB).result with
    | returned v =>
      obtain ⟨i, _, hi⟩ := goB_returned_from_op mr condB name opB (mr + 1) 0 v hres
      exact ⟨i, hi⟩
    | exhausted nm k => trivial
    | fellThrough => trivial

/-- Witness for C7: Variant A returns `opOk5`'s first result 5 immediately
although `isOne` would reject everything (the result is not tested); Variant
B returns `opSeq`'s first result 1 immediately under the always-true
condition. -/
theorem claim_C7_witness :
    RetryHelperA.execute 3 (some isOne) true opOk5 = ⟨.returned 5, [], 0, 1⟩ ∧
    RetryHelperB.execute 3 condTrue "f" opSeq = ⟨.returned 1, [], 0, 1⟩ :=
  ⟨(claim_C7 3 (some isOne) true opOk5 5 condTrue "f" opSeq 1).1 rfl,
   (claim_C7 3 (some isOne) true opOk5 5 condTrue "f" opSeq 1).2.1 rfl rfl⟩

/-- Counterexample to C8 as stated: Variant B with the always-true condition
`condTrue`, `maxRetries = 1` and the always-raising operation `opRaise`.
The claim predicts a single, always-accepted attempt returning the first
invocation's result with no sleeps — but the run raises the exhaustion
error after 2 invocations, 1 sleep and 2 `on_retry` calls, because an
exception bypasses the condition entirely. -/
theorem claim_C8_counterexample :
    (RetryHelperB.execute 1 condTrue "f" opRaise).result = .exhausted "f" 1 ∧
    (RetryHelperB.execute 1 condTrue "f" opRaise).calls ≠ 1 ∧
    (RetryHelperB.execute 1 condTrue "f" opRaise).sleeps ≠ 0 := by decide

/-- C8 (amended): for Variant B with a `retry_condition` that always returns
true, every invocation that returns normally is accepted; in particular, if
the first invocation returns normally, `execute` performs exactly one
attempt and returns its result with no `on_retry` calls and no sleeps, for
every `maxRetries`.  (A first invocation that raises is still retried.) -/
theorem claim_C8 {E A : Type} (mr : Nat) (cond : A → Bool) (name : String)
    (op : Nat → Outcome E A) (a : A) (hc : ∀ x, cond x = true)
    (h0 : op 0 = .ok a) :
    RetryHelperB.execute mr cond name op = ⟨.returned a, [], 0, 1⟩ := by
  simp [RetryHelperB.execute, RetryHelperB.go, h0, hc a]

/-- Witness for C8 (amended): the always-true condition with `opOk5` and
`maxRetries = 4` gives a single accepted attempt returning 5. -/
theorem claim_C8_witness :
    RetryHelperB.execute 4 condTrue "f" opOk5 = ⟨.returned 5, [], 0, 1⟩ :=
  claim_C8 4 condTrue "f" opOk5 5 (fun _ => rfl) rfl

/-- C9 (code divergence): the default windows are captured once at module
import, not computed per call.  With the module imported at clock time
`t0 = 10000`, two `get_metric_range_data` calls at clock times 20000 and
30000 that omit `start` and `end` both use the window
`(10000 - 3600, 10000) = (6400, 10000)` — identical to each other and
different from the call-time window `(20000 - 3600, 20000)` the claim (and
the function's own docstring, "по умолчанию текущий datetime") describes. -/
theorem claim_C9 :
    get_metric_range_data_window 10000 20000 none none = (6400, 10000) ∧
    get_metric_range_data_window 10000 30000 none none = (6400, 10000) ∧
    call_time_window 20000 none none = (16400, 20000) ∧
    get_metric_range_data_window 10000 20000 none none
      ≠ call_time_window 20000 none none := by decide

/-- C10: every value Variant B's `execute` returns normally satisfies
`retry_condition` — a rejected result is never surfaced as the return
value. -/
theorem claim_C10 {E A : Type} (mr : Nat) (cond : A → Bool) (name : String)
    (op : Nat → Outcome E A) (v : A)
    (h : (RetryHelperB.execute mr cond name op).result = .returned v) :
    cond v = true :=
  goB_returned_cond mr cond name op (mr + 1) 0 v h

/-- Witness for C10: the spec scenario run returns 3, and indeed
`geq3 3 = true`. -/
theorem claim_C10_witness : geq3 3 = true :=
  claim_C10 3 geq3 "op" opSeq 3 (by decide)

end VMA
